import Mathlib

/-!
Shallow embedding of the `hannos` heap-allocation subsystem
(`src/allocator/{bump,buddy,fixed}.rs`), followed by theorems about it.

Machine integers (`usize`, `u8`) are embedded as `Nat`.  Rust `usize`
arithmetic panics on overflow in debug builds rather than wrapping, and no
operation modelled here can overflow for in-range heap addresses, except the
explicitly checked `checked_add` in `BumpAllocator::alloc`, which is modelled
with an explicit `2 ^ 64` bound.  Heap memory holding in-band metadata is
modelled as total functions from addresses to the stored header / link value.
Source loops whose bound is data-dependent are embedded with an explicit fuel
parameter; each call site passes fuel that provably suffices, so the
embedded function agrees with the source loop on every reachable input.
-/

namespace Hannos

/-- The machine word bound for `usize` overflow checks (`checked_add`). -/
def USIZE_BOUND : Nat := 2 ^ 64

/-- Modelled from the spec: the helper `align_up` lives in the allocator
module file, which is absent from `src/`; the spec describes it as aligning
an address up to the caller's alignment, i.e. the least multiple of `align`
that is `≥ addr` (alignments are positive powers of two). -/
def align_up (addr align : Nat) : Nat :=
  (addr + align - 1) / align * align

/-- A Rust `Layout`: a size and a (power of two, positive) alignment. -/
structure Layout where
  size : Nat
  align : Nat
  deriving DecidableEq, Repr

/-! ## BumpAllocator (`src/allocator/bump.rs`) -/

/-- State of `BumpAllocator` (`bump.rs`, lines 8-13). -/
structure BumpAllocator where
  heap_start : Nat
  heap_end : Nat
  next : Nat
  allocations : Nat
  deriving DecidableEq, Repr

/-- `BumpAllocator::init` (`bump.rs`, lines 25-29). -/
def BumpAllocator.init (heap_start heap_size : Nat) : BumpAllocator :=
  { heap_start := heap_start
    heap_end := heap_start + heap_size
    next := heap_start
    allocations := 0 }

/-- `alloc` for `Locked<BumpAllocator>` (`bump.rs`, lines 33-48).
`checked_add` is modelled by the explicit `USIZE_BOUND` test; on failure the
state is returned unchanged (the source mutates nothing before `null_mut`). -/
def BumpAllocator.alloc (a : BumpAllocator) (layout : Layout) :
    Option Nat × BumpAllocator :=
  let start := align_up a.next layout.align
  if start + layout.size ≥ USIZE_BOUND then
    (none, a)
  else
    let e := start + layout.size
    if e > a.heap_end then
      (none, a)
    else
      (some start, { a with next := e, allocations := a.allocations + 1 })

/-- `dealloc` for `Locked<BumpAllocator>` (`bump.rs`, lines 50-56). -/
def BumpAllocator.dealloc (a : BumpAllocator) : BumpAllocator :=
  let a' := { a with allocations := a.allocations - 1 }
  if a'.allocations = 0 then { a' with next := a'.heap_start } else a'

/-- Run a list of allocation requests, succeeding only if every single
request succeeds; returns the pointers in order and the final state. -/
def BumpAllocator.allocAll (a : BumpAllocator) :
    List Layout → Option (List Nat × BumpAllocator)
  | [] => some ([], a)
  | l :: ls =>
    match a.alloc l with
    | (none, _) => none
    | (some p, a') =>
      match a'.allocAll ls with
      | none => none
      | some (ps, a'') => some (p :: ps, a'')

/-! ## BuddyAllocator (`src/allocator/buddy.rs`)

Heap memory is modelled as a total function `Nat → Block`: reading address
`a` as a block header yields `mem a`.  The source's `u8` order field is
embedded as `Nat`; for `usize` request sizes the computed order never
exceeds 61, far below the `u8` wrap at 256, so the embedding agrees with
the source on the whole `usize` input domain. -/

def BLOCK_SIZE : Nat := 16

def MAX_ORDER : Nat := 24

/-- `size_of::<Block>()`: `Block` is `repr(C)` with a `u8` and a `bool`,
so its size is 2 bytes. -/
def BLOCK_HEADER_SIZE : Nat := 2

/-- In-band block header (`buddy.rs`, lines 118-123). -/
structure Block where
  order : Nat
  is_free : Bool
  deriving DecidableEq, Repr

/-- Buddy heap memory: what `Block` header a read at each address yields. -/
def BuddyMem : Type := Nat → Block

/-- A memory whose every header reads as the given block (initial state for
concrete runs). -/
def constMem (b : Block) : BuddyMem := fun _ => b

/-- Allocator struct fields (`buddy.rs`, lines 42-45). -/
structure BuddyAllocator where
  heap_start : Nat
  heap_order : Nat
  deriving DecidableEq, Repr

/-- `Block::size` (`buddy.rs`, lines 126-128): `BLOCK_SIZE << order`. -/
def Block.size (b : Block) : Nat := BLOCK_SIZE * 2 ^ b.order

/-- `Block::get_memory_ptr` (`buddy.rs`, lines 130-132): payload pointer,
the header address plus the header size, aligned up. -/
def Block.get_memory_ptr (addr align : Nat) : Nat :=
  align_up (addr + BLOCK_HEADER_SIZE) align

/-- `BuddyAllocator::order` (`buddy.rs`, lines 107-115): double
`current_size` from `BLOCK_SIZE` until `current_size - header ≥ size`,
counting doublings.  The loop is embedded with explicit fuel; `size + 1`
steps always suffice (`orderGo_spec` below). -/
def orderGo (size : Nat) : Nat → Nat → Nat → Nat
  | 0, _, order => order
  | fuel + 1, current_size, order =>
    if current_size - BLOCK_HEADER_SIZE < size then
      orderGo size fuel (current_size * 2) (order + 1)
    else order

def BuddyAllocator.order (size : Nat) : Nat :=
  orderGo size (size + 1) BLOCK_SIZE 0

/-- Payload capacity of an order-`o` block: block size minus header size. -/
def payloadCapacity (o : Nat) : Nat := BLOCK_SIZE * 2 ^ o - BLOCK_HEADER_SIZE

/-- `BuddyAllocator::init_inner` (`buddy.rs`, lines 59-70): store the
(capped) order and heap start, and write one free block header at
`heap_start`. -/
def BuddyAllocator.init_inner (mem : BuddyMem) (heap_start heap_size : Nat) :
    BuddyAllocator × BuddyMem :=
  let order := min (BuddyAllocator.order heap_size) MAX_ORDER
  ({ heap_start := heap_start, heap_order := order },
    fun a => if a = heap_start then { order := order, is_free := true } else mem a)

/-- `BuddyAllocator::heap_size` (`buddy.rs`, lines 72-74). -/
def BuddyAllocator.heapSize (a : BuddyAllocator) : Nat :=
  BLOCK_SIZE * 2 ^ a.heap_order

/-- `Block::split` (`buddy.rs`, lines 138-155): halve a free block of
positive order, writing a free sibling header at the midpoint.  The two
fatal paths (non-free block, order 0) are modelled as `none`. -/
def Block.split (mem : BuddyMem) (addr : Nat) : Option BuddyMem :=
  if (mem addr).is_free = false then none
  else
    match (mem addr).order with
    | 0 => none
    | o + 1 =>
      let mem1 : BuddyMem := fun a =>
        if a = addr then { order := o, is_free := (mem addr).is_free } else mem a
      some (fun a =>
        if a = addr + BLOCK_SIZE * 2 ^ o then { order := o, is_free := true }
        else mem1 a)

/-- The inner `while (*block).order > order` split loop of
`get_block_of_min_order` (`buddy.rs`, lines 81-83), with fuel; the caller
passes the block's current order, which always suffices since each split
decrements it. -/
def splitDown (target : Nat) : Nat → BuddyMem → Nat → Option BuddyMem
  | 0, mem, addr => if target < (mem addr).order then none else some mem
  | fuel + 1, mem, addr =>
    if target < (mem addr).order then
      match Block.split mem addr with
      | none => none
      | some mem' => splitDown target fuel mem' addr
    else some mem

/-- The block-scan loop of `BuddyAllocator::get_block_of_min_order`
(`buddy.rs`, lines 76-105), with fuel (one unit per visited block; the
caller passes the heap size, an over-approximation of the block count,
since every block is at least `BLOCK_SIZE` bytes). -/
def scanBlocks (a : BuddyAllocator) (order : Nat) :
    Nat → BuddyMem → Nat → Option (Nat × BuddyMem)
  | 0, _, _ => none
  | fuel + 1, mem, addr =>
    if (mem addr).is_free = true ∧ order ≤ (mem addr).order then
      match splitDown order (mem addr).order mem addr with
      | none => none
      | some mem' => some (addr, mem')
    else
      let next := addr + (mem addr).size
      if next - a.heap_start ≥ a.heapSize then none
      else scanBlocks a order fuel mem next

def BuddyAllocator.get_block_of_min_order (a : BuddyAllocator)
    (mem : BuddyMem) (order : Nat) : Option (Nat × BuddyMem) :=
  scanBlocks a order a.heapSize mem a.heap_start

/-- `alloc` for `Locked<BuddyAllocator>` (`buddy.rs`, lines 14-31).  The
`block.as_mut().expect("got null addr instead of block pointer")` guard
(lines 23-25) panics when the selected block sits at address 0; that fatal
path is modelled as `none` (keeping the splits already written by the
scan, as the mutation precedes the panic). -/
def BuddyAllocator.alloc (a : BuddyAllocator) (mem : BuddyMem)
    (layout : Layout) : Option Nat × BuddyMem :=
  let order := BuddyAllocator.order layout.size
  if order > MAX_ORDER then (none, mem)
  else
    match a.get_block_of_min_order mem order with
    | some (addr, mem') =>
      if addr = 0 then (none, mem')
      else
        let mem'' : BuddyMem := fun x =>
          if x = addr then { order := (mem' addr).order, is_free := false }
          else mem' x
        (some (Block.get_memory_ptr addr layout.align), mem'')
    | none => (none, mem)

/-- `dealloc` for `Locked<BuddyAllocator>` (`buddy.rs`, lines 33-39): the
passed pointer itself is cast to a `Block` and its `is_free` flag is set;
nothing else is touched. -/
def BuddyAllocator.dealloc (mem : BuddyMem) (ptr : Nat) : BuddyMem :=
  fun a =>
    if a = ptr then { order := (mem ptr).order, is_free := true } else mem a

/-- The linear block tiling of the heap: scan from `addr` up to `endAddr`,
recording each header's address and order and stepping by the block size
(fuelled; used to state the frame property of `dealloc`). -/
def tiling : Nat → BuddyMem → Nat → Nat → List (Nat × Nat)
  | 0, _, _, _ => []
  | fuel + 1, mem, addr, endAddr =>
    if addr < endAddr then
      (addr, (mem addr).order) :: tiling fuel mem (addr + (mem addr).size) endAddr
    else []

/-- Concrete run for the buddy round trip: a heap holding exactly one
order-0 block at address 16, from which 1 byte with alignment 1 is
allocated (the payload pointer is the header address 16 plus the 2-byte
header, aligned to 1, i.e. 18). -/
def c1Alloc : Option Nat × BuddyMem :=
  BuddyAllocator.alloc
    (BuddyAllocator.init_inner (constMem { order := 0, is_free := false })
      16 14).1
    (BuddyAllocator.init_inner (constMem { order := 0, is_free := false })
      16 14).2
    { size := 1, align := 1 }

/-- The same heap after deallocating the pointer returned by `c1Alloc`. -/
def c1AfterDealloc : BuddyMem := BuddyAllocator.dealloc c1Alloc.2 18

/-! ## FixedSizeAllocator (`src/allocator/fixed.rs`)

The intrusive free lists store their `next` pointers inside heap memory;
that memory is modelled as a total function `NextMem : Nat → Option Nat`
giving the link value readable at each address, separate from the
allocator struct (which holds only the list heads). -/

def BLOCK_SIZES : List Nat := [8, 16, 32, 64, 128, 256, 512, 1024, 2048]

def MIN_BLOCK_SIZE : Nat := 8

def MAX_BLOCK_SIZE : Nat := 2048

/-- Intrusive link memory: the `ListNode.next` value stored at an address. -/
def NextMem : Type := Nat → Option Nat

/-- Link memory with no stored links (initial state for concrete runs). -/
def emptyNextMem : NextMem := fun _ => none

/-- Allocator struct (`fixed.rs`, lines 36-42): the free-list array is a
9-element list of `Option` head pointers. -/
structure FixedSizeAllocator where
  heap_start : Nat
  heap_size : Nat
  used_memory : Nat
  free_list : List (Option Nat)
  deriving DecidableEq, Repr

/-- `FixedSizeAllocator::new` followed by `_init`
(`fixed.rs`, lines 45-62). -/
def FixedSizeAllocator.initState (heap_start heap_size : Nat) :
    FixedSizeAllocator :=
  { heap_start := heap_start
    heap_size := heap_size
    used_memory := 0
    free_list := List.replicate 9 none }

/-- `get_block_size_index` (`fixed.rs`, lines 144-152): position of the
first class that is `≥ size`.  The source panics when no class fits
(`size > MAX_BLOCK_SIZE`); there `findIdx` yields the out-of-range index 9,
and every theorem below stays within `size ≤ MAX_BLOCK_SIZE`, where the
panic cannot fire. -/
def get_block_size_index (size : Nat) : Nat :=
  BLOCK_SIZES.findIdx (fun v => decide (size ≤ v))

/-- `round_up` (`fixed.rs`, lines 154-156). -/
def FixedSizeAllocator.round_up (size : Nat) : Nat :=
  BLOCK_SIZES.getD (get_block_size_index size) 0

/-- `add_block` (`fixed.rs`, lines 188-196): push `ptr` onto the free list
for the class of `size`, storing the previous head into the node's memory. -/
def FixedSizeAllocator.add_block (st : FixedSizeAllocator) (mem : NextMem)
    (ptr size : Nat) : FixedSizeAllocator × NextMem :=
  let idx := get_block_size_index size
  let head := st.free_list.getD idx none
  ({ st with free_list := st.free_list.set idx (some ptr) },
    fun a => if a = ptr then head else mem a)

/-- `remove_block` (`fixed.rs`, lines 198-204): pop the head of free list
`idx`, following the link stored in the head node's memory. -/
def FixedSizeAllocator.remove_block (st : FixedSizeAllocator) (mem : NextMem)
    (idx : Nat) : Option (Nat × FixedSizeAllocator) :=
  match st.free_list.getD idx none with
  | none => none
  | some p => some (p, { st with free_list := st.free_list.set idx (mem p) })

/-- `find_index_of_larger_block` (`fixed.rs`, lines 137-142). -/
def FixedSizeAllocator.find_index_of_larger_block (st : FixedSizeAllocator)
    (start_index : Nat) : Option Nat :=
  ((st.free_list.drop start_index).findIdx? (fun node => node.isSome)).map
    (· + start_index)

/-- The largest size class that fits in `gap`
(`fixed.rs`, lines 165-169: `BLOCK_SIZES.iter().filter(|s| **s <= gap).max()`).
The `unwrap` of an empty filter (`gap < 8`) is modelled as 0; the call site
guards `gap ≥ MIN_BLOCK_SIZE`, where the filter is nonempty. -/
def largestClassLE (gap : Nat) : Nat :=
  ((BLOCK_SIZES.filter (fun s => decide (s ≤ gap))).max?).getD 0

/-- The alignment-padding loop of `create_block` (`fixed.rs`, lines
164-173): while the gap to the aligned address holds at least the minimum
class, push a padding block of the largest fitting class and advance.
Fuelled; the caller passes the initial gap, which suffices because every
iteration shrinks the gap by at least `MIN_BLOCK_SIZE`. -/
def padLoopF : Nat → FixedSizeAllocator → NextMem → Nat → Nat →
    FixedSizeAllocator × NextMem × Nat
  | 0, st, mem, current_addr, _ => (st, mem, current_addr)
  | fuel + 1, st, mem, current_addr, block_addr =>
    if MIN_BLOCK_SIZE ≤ block_addr - current_addr then
      let pad_size := largestClassLE (block_addr - current_addr)
      let sm := st.add_block mem current_addr pad_size
      padLoopF fuel { sm.1 with used_memory := sm.1.used_memory + pad_size }
        sm.2 (current_addr + pad_size) block_addr
    else (st, mem, current_addr)

/-- `create_block` (`fixed.rs`, lines 158-186).  Returns the optional block
address together with the mutated state: on the out-of-memory path the
source has already pushed its padding blocks and advanced `used_memory`,
and when the aligned address is 0 `MyNonNull::new` yields `None` while
`used_memory` is still advanced past the block. -/
def FixedSizeAllocator.create_block (st : FixedSizeAllocator) (mem : NextMem)
    (size align : Nat) : Option Nat × FixedSizeAllocator × NextMem :=
  let current_addr := st.heap_start + st.used_memory
  let block_addr := align_up current_addr align
  let smc := padLoopF (block_addr - current_addr) st mem current_addr block_addr
  let st2 := { smc.1 with
    used_memory := smc.1.used_memory + (block_addr - smc.2.2) }
  let block_size := FixedSizeAllocator.round_up size
  if st2.used_memory + block_size > st2.heap_size then (none, st2, smc.2.1)
  else
    ((if block_addr = 0 then none else some block_addr),
      { st2 with used_memory := st2.used_memory + block_size }, smc.2.1)

/-- `split_block` (`fixed.rs`, lines 124-135); the two fatal paths
(`checked_sub` at class 0, `expect` on an empty list) are `none`. -/
def FixedSizeAllocator.split_block (st : FixedSizeAllocator) (mem : NextMem)
    (idx : Nat) : Option (FixedSizeAllocator × NextMem) :=
  match idx with
  | 0 => none
  | i + 1 =>
    let size := BLOCK_SIZES.getD i 0
    match st.remove_block mem (i + 1) with
    | none => none
    | some (node, st1) =>
      let sm1 := st1.add_block mem node size
      let sm2 := sm1.1.add_block sm1.2 (node + size) size
      some sm2

/-- The `for i in 0..larger_block_idx - idx` loop of `_alloc`
(`fixed.rs`, lines 80-82): split classes `j, j-1, …` down `count` times. -/
def splitBlocksDown (st : FixedSizeAllocator) (mem : NextMem) :
    Nat → Nat → Option (FixedSizeAllocator × NextMem)
  | _, 0 => some (st, mem)
  | j, n + 1 =>
    match st.split_block mem j with
    | none => none
    | some (st', mem') => splitBlocksDown st' mem' (j - 1) n

/-- The `for` loop of `_alloc_huge` (`fixed.rs`, lines 100-102): carve
`n` further max-class blocks; `?` propagates failure but keeps the
mutations already performed. -/
def hugeLoop : Nat → FixedSizeAllocator → NextMem →
    Option Unit × FixedSizeAllocator × NextMem
  | 0, st, mem => (some (), st, mem)
  | n + 1, st, mem =>
    match st.create_block mem MAX_BLOCK_SIZE MAX_BLOCK_SIZE with
    | (none, st1, mem1) => (none, st1, mem1)
    | (some _, st1, mem1) => hugeLoop n st1 mem1

/-- `_alloc_huge` (`fixed.rs`, lines 96-104). -/
def FixedSizeAllocator.alloc_huge (st : FixedSizeAllocator) (mem : NextMem)
    (size : Nat) : Option Nat × FixedSizeAllocator × NextMem :=
  match st.create_block mem MAX_BLOCK_SIZE MAX_BLOCK_SIZE with
  | (none, st1, mem1) => (none, st1, mem1)
  | (some first_block, st1, mem1) =>
    let blocks_needed := size / MAX_BLOCK_SIZE + 1
    match hugeLoop (blocks_needed - 1) st1 mem1 with
    | (none, st2, mem2) => (none, st2, mem2)
    | (some _, st2, mem2) => (some first_block, st2, mem2)

/-- `_alloc` (`fixed.rs`, lines 64-94); the unreachable `expect` after a
split is modelled as a failed allocation. -/
def FixedSizeAllocator.alloc (st : FixedSizeAllocator) (mem : NextMem)
    (layout : Layout) : Option Nat × FixedSizeAllocator × NextMem :=
  let size := layout.size
  if size > MAX_BLOCK_SIZE then st.alloc_huge mem size
  else
    let idx := get_block_size_index size
    match st.remove_block mem idx with
    | some (p, st') => (some p, st', mem)
    | none =>
      match st.find_index_of_larger_block (idx + 1) with
      | some larger_block_idx =>
        match splitBlocksDown st mem larger_block_idx
            (larger_block_idx - idx) with
        | none => (none, st, mem)
        | some (st1, mem1) =>
          match st1.remove_block mem1 idx with
          | some (p, st2) => (some p, st2, mem1)
          | none => (none, st1, mem1)
      | none => st.create_block mem size layout.align

/-- `_dealloc_huge` (`fixed.rs`, lines 114-122). -/
def FixedSizeAllocator.dealloc_huge (st : FixedSizeAllocator) (mem : NextMem)
    (ptr size : Nat) : FixedSizeAllocator × NextMem :=
  let no_of_blocks := size / MAX_BLOCK_SIZE + 1
  (List.range no_of_blocks).foldl
    (fun sm i =>
      FixedSizeAllocator.add_block sm.1 sm.2 (ptr + MAX_BLOCK_SIZE * i)
        MAX_BLOCK_SIZE)
    (st, mem)

/-- `_dealloc` (`fixed.rs`, lines 106-112). -/
def FixedSizeAllocator.dealloc (st : FixedSizeAllocator) (mem : NextMem)
    (ptr : Nat) (layout : Layout) : FixedSizeAllocator × NextMem :=
  if layout.size > MAX_BLOCK_SIZE then st.dealloc_huge mem ptr layout.size
  else st.add_block mem ptr layout.size

/-! ### Specification-side definitions -/

/-- The sequence of padding-class sizes the padding loop emits for a gap,
as a pure list (fuelled; `gap` steps always suffice). -/
def padListF : Nat → Nat → List Nat
  | 0, _ => []
  | fuel + 1, gap =>
    if MIN_BLOCK_SIZE ≤ gap then
      largestClassLE gap :: padListF fuel (gap - largestClassLE gap)
    else []

def padList (gap : Nat) : List Nat := padListF gap gap

/-- Push the given padding blocks at consecutive addresses, advancing the
cursor and `used_memory` by each pad size — the effect the spec ascribes to
the padding phase of `create_block`. -/
def applyPads (st : FixedSizeAllocator) (mem : NextMem) (current : Nat)
    (pads : List Nat) : FixedSizeAllocator × NextMem × Nat :=
  pads.foldl
    (fun smc p =>
      let sm := FixedSizeAllocator.add_block smc.1 smc.2.1 smc.2.2 p
      ({ sm.1 with used_memory := sm.1.used_memory + p }, sm.2, smc.2.2 + p))
    (st, mem, current)

/-- `create_block` as the (amended) spec describes it: emit the `padList`
padding blocks over the alignment gap, mark the sub-minimum remainder of
the gap used without any free-list entry, then carve the class-sized
block. -/
def createBlockSpec (st : FixedSizeAllocator) (mem : NextMem)
    (size align : Nat) : Option Nat × FixedSizeAllocator × NextMem :=
  let current_addr := st.heap_start + st.used_memory
  let block_addr := align_up current_addr align
  let smc := applyPads st mem current_addr (padList (block_addr - current_addr))
  let st2 := { smc.1 with
    used_memory := smc.1.used_memory + (block_addr - smc.2.2) }
  let block_size := FixedSizeAllocator.round_up size
  if st2.used_memory + block_size > st2.heap_size then (none, st2, smc.2.1)
  else
    ((if block_addr = 0 then none else some block_addr),
      { st2 with used_memory := st2.used_memory + block_size }, smc.2.1)

/-- Follow a free list's intrusive links through memory, collecting up to
`k` node addresses. -/
def takeChain (mem : NextMem) : Option Nat → Nat → List Nat
  | _, 0 => []
  | none, _ + 1 => []
  | some a, k + 1 => a :: takeChain mem (mem a) k

/-! ## Helper lemmas -/

theorem align_up_dvd (addr align : Nat) : align ∣ align_up addr align :=
  Dvd.intro_left _ rfl

theorem le_align_up (addr : Nat) {align : Nat} (h : 0 < align) :
    addr ≤ align_up addr align := by
  unfold align_up
  rw [Nat.mul_comm]
  have h2 := Nat.div_add_mod (addr + align - 1) align
  have h3 : (addr + align - 1) % align < align := Nat.mod_lt _ h
  set q := (addr + align - 1) / align with hq
  set r := (addr + align - 1) % align with hr
  set m := align * q with hm
  omega

theorem align_up_lt (addr : Nat) {align : Nat} (h : 0 < align) :
    align_up addr align < addr + align := by
  unfold align_up
  rw [Nat.mul_comm]
  have h2 := Nat.div_add_mod (addr + align - 1) align
  have h3 : (addr + align - 1) % align < align := Nat.mod_lt _ h
  set q := (addr + align - 1) / align with hq
  set r := (addr + align - 1) % align with hr
  set m := align * q with hm
  omega

theorem align_up_of_dvd (addr : Nat) {align : Nat} (h : 0 < align)
    (hd : align ∣ addr) : align_up addr align = addr := by
  obtain ⟨k, hk⟩ := hd
  subst hk
  unfold align_up
  have h1 : align * k + align - 1 = align - 1 + align * k := by omega
  rw [h1, Nat.add_mul_div_left _ _ h, Nat.div_eq_of_lt (by omega),
    Nat.zero_add, Nat.mul_comm]

/-- Invariant of the `order` loop: if every order below `ord` lacks the
capacity for `s` and the remaining fuel can still reach order `s + 1`, the
loop returns the least order whose payload capacity is at least `s`. -/
theorem orderGo_spec (s : Nat) : ∀ fuel ord : Nat,
    (∀ j, j < ord → payloadCapacity j < s) → s + 1 ≤ fuel + ord →
    s ≤ payloadCapacity (orderGo s fuel (BLOCK_SIZE * 2 ^ ord) ord) ∧
      ∀ j, j < orderGo s fuel (BLOCK_SIZE * 2 ^ ord) ord →
        payloadCapacity j < s := by
  intro fuel
  induction fuel with
  | zero =>
    intro ord hlow hfuel
    have hp := Nat.lt_two_pow ord
    refine ⟨?_, hlow⟩
    show s ≤ BLOCK_SIZE * 2 ^ ord - BLOCK_HEADER_SIZE
    set p := 2 ^ ord with hpdef
    simp only [BLOCK_SIZE, BLOCK_HEADER_SIZE]
    omega
  | succ fuel ih =>
    intro ord hlow hfuel
    simp only [orderGo]
    by_cases hc : BLOCK_SIZE * 2 ^ ord - BLOCK_HEADER_SIZE < s
    · rw [if_pos hc]
      have hpow : BLOCK_SIZE * 2 ^ ord * 2 = BLOCK_SIZE * 2 ^ (ord + 1) := by
        rw [Nat.pow_succ, Nat.mul_assoc]
      rw [hpow]
      refine ih (ord + 1) ?_ (by omega)
      intro j hj
      rcases Nat.lt_succ_iff_lt_or_eq.mp hj with h | h
      · exact hlow j h
      · subst h; exact hc
    · rw [if_neg hc]
      exact ⟨Nat.le_of_not_lt hc, hlow⟩

/-- `order s` returns the least order whose payload capacity covers `s`. -/
theorem order_spec (s : Nat) :
    s ≤ payloadCapacity (BuddyAllocator.order s) ∧
      ∀ j, j < BuddyAllocator.order s → payloadCapacity j < s := by
  have h := orderGo_spec s (s + 1) 0 (by intro j hj; omega) (by omega)
  have h16 : BLOCK_SIZE * 2 ^ 0 = BLOCK_SIZE := by simp
  rw [h16] at h
  exact h

theorem order_minimal (s o : Nat) (h : s ≤ payloadCapacity o) :
    BuddyAllocator.order s ≤ o := by
  by_contra hlt
  exact absurd h (Nat.not_le_of_lt ((order_spec s).2 o (Nat.lt_of_not_le hlt)))

theorem order_mono {s t : Nat} (h : s ≤ t) :
    BuddyAllocator.order s ≤ BuddyAllocator.order t :=
  order_minimal s _ (Nat.le_trans h (order_spec t).1)

/-- Tilings depend only on the order fields of the memory. -/
theorem tiling_congr_order (mem mem' : BuddyMem)
    (h : ∀ a, (mem' a).order = (mem a).order) :
    ∀ fuel addr endAddr,
      tiling fuel mem' addr endAddr = tiling fuel mem addr endAddr := by
  intro fuel
  induction fuel with
  | zero => intro addr endAddr; rfl
  | succ fuel ih =>
    intro addr endAddr
    show (if addr < endAddr then
        (addr, (mem' addr).order) ::
          tiling fuel mem' (addr + (mem' addr).size) endAddr else []) = _
    rw [h addr]
    show _ = (if addr < endAddr then
        (addr, (mem addr).order) ::
          tiling fuel mem (addr + (mem addr).size) endAddr else [])
    by_cases hlt : addr < endAddr
    · rw [if_pos hlt, if_pos hlt, Block.size, Block.size, h addr, ih]
    · rw [if_neg hlt, if_neg hlt]

theorem get_block_size_index_lt (size : Nat) (h : size ≤ MAX_BLOCK_SIZE) :
    get_block_size_index size < 9 :=
  List.findIdx_lt_length_of_exists
    ⟨2048, by simp [BLOCK_SIZES], by simpa [MAX_BLOCK_SIZE] using h⟩

theorem foldl_max_le {gap : Nat} :
    ∀ (l : List Nat) (a : Nat), a ≤ gap → (∀ x ∈ l, x ≤ gap) →
      List.foldl max a l ≤ gap := by
  intro l
  induction l with
  | nil => intro a ha _; simpa using ha
  | cons b t ih =>
    intro a ha hall
    refine ih (max a b) ?_ (fun x hx => hall x (List.mem_cons_of_mem _ hx))
    have hb := hall b (List.mem_cons_self _ _)
    omega

theorem le_foldl_max :
    ∀ (l : List Nat) (a x : Nat), x = a ∨ x ∈ l → x ≤ List.foldl max a l := by
  intro l
  induction l with
  | nil =>
    intro a x hx
    rcases hx with h | h
    · subst h; exact Nat.le_refl _
    · cases h
  | cons b t ih =>
    intro a x hx
    show x ≤ List.foldl max (max a b) t
    rcases hx with h | h
    · exact le_of_eq_of_le h
        (Nat.le_trans (Nat.le_max_left a b) (ih (max a b) _ (Or.inl rfl)))
    · rcases List.mem_cons.mp h with h | h
      · exact le_of_eq_of_le h
          (Nat.le_trans (Nat.le_max_right a b) (ih (max a b) _ (Or.inl rfl)))
      · exact ih (max a b) x (Or.inr h)

theorem foldl_max_mem :
    ∀ (l : List Nat) (a : Nat),
      List.foldl max a l = a ∨ List.foldl max a l ∈ l := by
  intro l
  induction l with
  | nil => intro a; left; rfl
  | cons b t ih =>
    intro a
    simp only [List.foldl]
    rcases ih (max a b) with h | h
    · rcases Nat.le_total a b with hab | hab
      · rw [Nat.max_eq_right hab] at h ⊢
        right
        rw [h]
        exact List.mem_cons_self _ _
      · rw [Nat.max_eq_left hab] at h ⊢
        left
        exact h
    · exact Or.inr (List.mem_cons_of_mem _ h)

/-- At the guarded call site (`gap ≥ MIN_BLOCK_SIZE`) the padding size is a
size class, at least the minimum class, fits in the gap, and is the largest
class to do so. -/
theorem largestClassLE_spec (gap : Nat) (h : MIN_BLOCK_SIZE ≤ gap) :
    MIN_BLOCK_SIZE ≤ largestClassLE gap ∧ largestClassLE gap ≤ gap ∧
      largestClassLE gap ∈ BLOCK_SIZES ∧
      ∀ s ∈ BLOCK_SIZES, s ≤ gap → s ≤ largestClassLE gap := by
  have h8 : (8 : Nat) ∈ BLOCK_SIZES.filter (fun s => decide (s ≤ gap)) := by
    refine List.mem_filter.mpr ⟨by simp [BLOCK_SIZES], ?_⟩
    simpa [MIN_BLOCK_SIZE] using h
  obtain ⟨b, t, hbt⟩ :
      ∃ b t, BLOCK_SIZES.filter (fun s => decide (s ≤ gap)) = b :: t := by
    cases hf : BLOCK_SIZES.filter (fun s => decide (s ≤ gap)) with
    | nil => rw [hf] at h8; cases h8
    | cons b t => exact ⟨b, t, rfl⟩
  have hmem : ∀ x, x ∈ b :: t → x ≤ gap ∧ x ∈ BLOCK_SIZES := by
    intro x hx
    have hx' : x ∈ BLOCK_SIZES.filter (fun s => decide (s ≤ gap)) := by
      rw [hbt]; exact hx
    have := List.mem_filter.mp hx'
    exact ⟨by simpa using this.2, this.1⟩
  have hres : largestClassLE gap = List.foldl max b t := by
    unfold largestClassLE
    rw [hbt]
    simp [List.max?]
  rw [hres]
  refine ⟨?_, ?_, ?_, ?_⟩
  · have : (8 : Nat) ∈ b :: t := by rw [← hbt]; exact h8
    rcases List.mem_cons.mp this with h' | h'
    · exact le_foldl_max t b 8 (Or.inl h')
    · exact le_foldl_max t b 8 (Or.inr h')
  · exact foldl_max_le t b (hmem b (List.mem_cons_self _ _)).1
      (fun x hx => (hmem x (List.mem_cons_of_mem _ hx)).1)
  · rcases foldl_max_mem t b with h' | h'
    · rw [h']; exact (hmem b (List.mem_cons_self _ _)).2
    · exact (hmem _ (List.mem_cons_of_mem _ h')).2
  · intro s hs hsg
    have hsf : s ∈ b :: t := by
      rw [← hbt]
      exact List.mem_filter.mpr ⟨hs, by simpa using hsg⟩
    rcases List.mem_cons.mp hsf with h' | h'
    · exact le_foldl_max t b s (Or.inl h')
    · exact le_foldl_max t b s (Or.inr h')

/-! ## Claim theorems -/

/-- C6 (counterexample): the payload capacity (block size minus header
size) does not double per order increment: at order 0 it is 14 and at
order 1 it is 30, not 28. -/
theorem payload_capacity_not_doubling :
    payloadCapacity 1 ≠ 2 * payloadCapacity 0 := by decide

/-- C6 (amended): `order(1) = 0`; `order` is monotonic; `order(s)` is the
smallest order whose payload capacity (block size minus header size) is at
least `s`; and the payload capacity satisfies
`capacity(o+1) = 2·capacity(o) + header size` (the raw block size doubles
per increment, the payload capacity does not exactly double). -/
theorem order_minimal_monotonic :
    BuddyAllocator.order 1 = 0 ∧
    (∀ s t : Nat, s ≤ t → BuddyAllocator.order s ≤ BuddyAllocator.order t) ∧
    (∀ s : Nat, s ≤ payloadCapacity (BuddyAllocator.order s) ∧
      ∀ o : Nat, s ≤ payloadCapacity o → BuddyAllocator.order s ≤ o) ∧
    (∀ o : Nat,
      payloadCapacity (o + 1) = 2 * payloadCapacity o + BLOCK_HEADER_SIZE) := by
  refine ⟨by decide, fun s t h => order_mono h,
    fun s => ⟨(order_spec s).1, fun o h => order_minimal s o h⟩, ?_⟩
  intro o
  have hp : 0 < 2 ^ o := Nat.pos_pow_of_pos o (by decide)
  simp only [payloadCapacity, BLOCK_SIZE, BLOCK_HEADER_SIZE, Nat.pow_succ]
  set p := 2 ^ o with hpdef
  omega

/-- C6 (witness): the monotonicity and minimality parts applied at
concrete inputs. -/
theorem order_minimal_monotonic_witness :
    (3 : Nat) ≤ 20 ∧ BuddyAllocator.order 3 ≤ BuddyAllocator.order 20 ∧
    (20 : Nat) ≤ payloadCapacity 1 ∧ BuddyAllocator.order 20 ≤ 1 :=
  ⟨by decide, order_minimal_monotonic.2.1 3 20 (by decide), by decide,
    (order_minimal_monotonic.2.2.1 20).2 1 (by decide)⟩

/-- C3 (counterexample): `init_inner` with `heap_size = 32` writes order 2,
whose block size 64 extends past the heap end, while the largest order
fitting 32 bytes is 1 — the heap is rounded up, not down. -/
theorem init_rounds_up_counterexample :
    (BuddyAllocator.init_inner (constMem { order := 0, is_free := false })
      0 32).1.heap_order = 2 ∧
    ¬ BLOCK_SIZE * 2 ^ 2 ≤ 32 ∧ BLOCK_SIZE * 2 ^ 1 ≤ 32 ∧
    (1 : Nat) ≤ MAX_ORDER := by decide

/-- C3 (amended): `init` writes a single free `Block{order, is_free=true}`
header at `heap_start`, with `order = min(order(heap_size), MAX_ORDER)`,
where `order(heap_size)` is the *smallest* order whose payload capacity is
at least `heap_size` — a round-up capped at `MAX_ORDER`, so unless the cap
applies the block's capacity covers `heap_size` and the block may extend
past `heap_start + heap_size`. -/
theorem init_inner_spec (mem : BuddyMem) (hs hsize : Nat) :
    (BuddyAllocator.init_inner mem hs hsize).1.heap_start = hs ∧
    (BuddyAllocator.init_inner mem hs hsize).1.heap_order
      = min (BuddyAllocator.order hsize) MAX_ORDER ∧
    (BuddyAllocator.init_inner mem hs hsize).2 hs
      = { order := min (BuddyAllocator.order hsize) MAX_ORDER,
          is_free := true } ∧
    (∀ a, a ≠ hs → (BuddyAllocator.init_inner mem hs hsize).2 a = mem a) ∧
    (MAX_ORDER ≤ BuddyAllocator.order hsize ∨
      hsize ≤ payloadCapacity
        (BuddyAllocator.init_inner mem hs hsize).1.heap_order) := by
  refine ⟨rfl, rfl, by simp [BuddyAllocator.init_inner],
    fun a ha => by simp [BuddyAllocator.init_inner, ha], ?_⟩
  rcases Nat.le_total MAX_ORDER (BuddyAllocator.order hsize) with h | h
  · exact Or.inl h
  · right
    show hsize ≤ payloadCapacity (min (BuddyAllocator.order hsize) MAX_ORDER)
    rw [Nat.min_eq_left h]
    exact (order_spec hsize).1

/-- C3 (witness): the frame part of `init_inner_spec` at a concrete
address distinct from the heap start. -/
theorem init_inner_spec_witness :
    (7 : Nat) ≠ 5 ∧
    (BuddyAllocator.init_inner (constMem { order := 0, is_free := false })
      5 100).2 7 = constMem { order := 0, is_free := false } 7 :=
  ⟨by decide,
    (init_inner_spec (constMem { order := 0, is_free := false }) 5 100).2.2.2.1
      7 (by decide)⟩

/-- C9: `dealloc` sets the `is_free` flag of the (purported) block at the
passed address to true, changes nothing else, preserves every `order`
field, and therefore leaves the linear block tiling (the scanned sequence
of block addresses and orders) identical. -/
theorem dealloc_no_coalescing (mem : BuddyMem) (ptr : Nat) :
    BuddyAllocator.dealloc mem ptr ptr
      = { order := (mem ptr).order, is_free := true } ∧
    (∀ a, a ≠ ptr → BuddyAllocator.dealloc mem ptr a = mem a) ∧
    (∀ a, (BuddyAllocator.dealloc mem ptr a).order = (mem a).order) ∧
    (∀ fuel addr endAddr,
      tiling fuel (BuddyAllocator.dealloc mem ptr) addr endAddr
        = tiling fuel mem addr endAddr) := by
  have horder : ∀ a, (BuddyAllocator.dealloc mem ptr a).order = (mem a).order := by
    intro a
    by_cases h : a = ptr
    · subst h; simp [BuddyAllocator.dealloc]
    · simp [BuddyAllocator.dealloc, h]
  exact ⟨by simp [BuddyAllocator.dealloc],
    fun a ha => by simp [BuddyAllocator.dealloc, ha], horder,
    tiling_congr_order mem _ horder⟩

/-- C9 (witness): the frame part of `dealloc_no_coalescing` at concrete
addresses. -/
theorem dealloc_no_coalescing_witness :
    (5 : Nat) ≠ 4 ∧
    BuddyAllocator.dealloc (constMem { order := 3, is_free := false }) 4 5
      = constMem { order := 3, is_free := false } 5 :=
  ⟨by decide,
    (dealloc_no_coalescing (constMem { order := 3, is_free := false }) 4).2.1
      5 (by decide)⟩

/-- C1 (code bug, evaluated): on a heap holding one order-0 block at
address 16, `alloc(size 1, align 1)` returns the payload pointer 18, and
`dealloc(18)` sets `is_free` at address 18 itself — the allocated block's
header at address 16 stays `is_free = false`, so the block is never freed;
no walk back from the payload pointer to the header happens. -/
theorem buddy_dealloc_marks_payload_not_header :
    c1Alloc.1 = some 18 ∧
    (c1Alloc.2 16).is_free = false ∧
    (c1AfterDealloc 16).is_free = false ∧
    (c1AfterDealloc 18).is_free = true := by decide

/-- C10: if adding the request size to the aligned `next` address reaches
the machine-word bound (the `checked_add` overflow case), `alloc` returns
null with the allocator state — `next` and `allocations` — unchanged, and
no (wrapped) pointer is produced. -/
theorem bump_alloc_overflow_returns_null (a : BumpAllocator) (l : Layout)
    (h : USIZE_BOUND ≤ align_up a.next l.align + l.size) :
    a.alloc l = (none, a) := by
  simp [BumpAllocator.alloc, h]

/-- C10 (witness): a concrete state 50 bytes below the address-space top,
asked for 100 bytes. -/
theorem bump_alloc_overflow_returns_null_witness :
    USIZE_BOUND ≤ align_up (2 ^ 64 - 50) 1 + 100 ∧
    BumpAllocator.alloc ⟨0, 2 ^ 64, 2 ^ 64 - 50, 0⟩ ⟨100, 1⟩
      = (none, ⟨0, 2 ^ 64, 2 ^ 64 - 50, 0⟩) :=
  ⟨by decide, bump_alloc_overflow_returns_null _ _ (by decide)⟩

/-- C4 (counterexample): a `FixedSizeAllocator` with an 8-byte heap, asked
for 8 bytes aligned to 16: the allocation fails (null), yet `used_memory`
has advanced from 0 to 8 and a padding block now sits in a free list —
the failing allocation mutated internal state. -/
theorem fixed_alloc_failure_mutates_counterexample :
    (FixedSizeAllocator.alloc
      { heap_start := 8, heap_size := 8, used_memory := 0,
        free_list := List.replicate 9 none } emptyNextMem
      { size := 8, align := 16 }).1 = none ∧
    (FixedSizeAllocator.alloc
      { heap_start := 8, heap_size := 8, used_memory := 0,
        free_list := List.replicate 9 none } emptyNextMem
      { size := 8, align := 16 }).2.1.used_memory = 8 ∧
    (FixedSizeAllocator.alloc
      { heap_start := 8, heap_size := 8, used_memory := 0,
        free_list := List.replicate 9 none } emptyNextMem
      { size := 8, align := 16 }).2.1.free_list
      ≠ List.replicate 9 none := by decide

/-- C4 (amended): a failing `BumpAllocator::alloc` returns null with the
state unchanged (both the overflow and the capacity branch); the
`FixedSizeAllocator` gives no such guarantee — a failing alloc may have
already pushed alignment-padding blocks and advanced `used_memory`, shown
here on a second concrete instance. -/
theorem alloc_failure_effects :
    (∀ (a : BumpAllocator) (l : Layout) (a' : BumpAllocator),
      a.alloc l = (none, a') → a' = a) ∧
    ((FixedSizeAllocator.alloc
       { heap_start := 8, heap_size := 8, used_memory := 0,
         free_list := List.replicate 9 none } emptyNextMem
       { size := 8, align := 32 }).1 = none ∧
     (FixedSizeAllocator.alloc
       { heap_start := 8, heap_size := 8, used_memory := 0,
         free_list := List.replicate 9 none } emptyNextMem
       { size := 8, align := 32 }).2.1.used_memory = 24) := by
  constructor
  · intro a l a' h
    simp only [BumpAllocator.alloc] at h
    split at h
    · injection h with h1 h2; exact h2.symm
    · split at h
      · injection h with h1 h2; exact h2.symm
      · injection h with h1 h2; cases h1
  · exact ⟨by decide, by decide⟩

/-- C4 (witness): the bump part of `alloc_failure_effects` applied at a
concrete failing allocation. -/
theorem alloc_failure_effects_witness :
    BumpAllocator.alloc ⟨0, 10, 0, 0⟩ ⟨100, 1⟩ = (none, ⟨0, 10, 0, 0⟩) ∧
    (⟨0, 10, 0, 0⟩ : BumpAllocator) = ⟨0, 10, 0, 0⟩ :=
  ⟨by decide,
    alloc_failure_effects.1 ⟨0, 10, 0, 0⟩ ⟨100, 1⟩ ⟨0, 10, 0, 0⟩ (by decide)⟩

/-- Shape of a successful bump allocation: the returned pointer is the
aligned cursor, and the cursor advances to its end. -/
theorem bump_alloc_some_shape (a : BumpAllocator) (l : Layout) (p : Nat)
    (a1 : BumpAllocator) (h : a.alloc l = (some p, a1)) :
    p = align_up a.next l.align ∧ a1.next = p + l.size ∧
      a1.heap_end = a.heap_end ∧ a1.heap_start = a.heap_start := by
  simp only [BumpAllocator.alloc] at h
  split at h
  · injection h with h1 h2; cases h1
  · split at h
    · injection h with h1 h2; cases h1
    · injection h with h1 h2
      injection h1 with h1
      subst h1
      subst h2
      exact ⟨rfl, rfl, rfl, rfl⟩

/-- Invariant of a fully successful allocation run: the cursor only grows,
every pointer is aligned, every returned range lies between the starting
and final cursor, and the ranges are chained in address order. -/
theorem allocAll_spec :
    ∀ (lays : List Layout) (a : BumpAllocator) (ps : List Nat)
      (a' : BumpAllocator),
      (∀ l ∈ lays, 0 < l.align) →
      a.allocAll lays = some (ps, a') →
      a.next ≤ a'.next ∧
      List.Forall₂ (fun (l : Layout) (p : Nat) => l.align ∣ p) lays ps ∧
      (∀ pr ∈ ps.zip (lays.map Layout.size),
        a.next ≤ pr.1 ∧ pr.1 + pr.2 ≤ a'.next) ∧
      List.Pairwise (fun x y => x.1 + x.2 ≤ y.1)
        (ps.zip (lays.map Layout.size)) := by
  intro lays
  induction lays with
  | nil =>
    intro a ps a' _ h
    simp only [BumpAllocator.allocAll] at h
    injection h with h'
    injection h' with h1 h2
    subst h1
    subst h2
    simp
  | cons l ls ih =>
    intro a ps a' hpos h
    simp only [BumpAllocator.allocAll] at h
    split at h
    · cases h
    · rename_i p a1 ha
      split at h
      · cases h
      · rename_i ps' a2 hr
        injection h with h'
        injection h' with h1 h2
        subst h1
        subst h2
        have hposl : 0 < l.align := hpos l (List.mem_cons_self _ _)
        obtain ⟨hp, hn1, _, _⟩ := bump_alloc_some_shape a l p a1 ha
        obtain ⟨IH1, IH2, IH3, IH4⟩ :=
          ih a1 ps' a2 (fun x hx => hpos x (List.mem_cons_of_mem _ hx)) hr
        have hanp : a.next ≤ p := hp ▸ le_align_up a.next hposl
        refine ⟨by omega, List.Forall₂.cons (hp ▸ align_up_dvd a.next l.align)
          IH2, ?_, ?_⟩
        · intro pr hpr
          simp only [List.map, List.zip_cons_cons] at hpr
          rcases List.mem_cons.mp hpr with h' | h'
          · subst h'
            exact ⟨hanp, by omega⟩
          · have := IH3 pr h'
            exact ⟨by omega, this.2⟩
        · simp only [List.map, List.zip_cons_cons]
          refine List.Pairwise.cons ?_ IH4
          intro y hy
          have := (IH3 y hy).1
          omega

/-- C8: for every fully successful sequence of bump allocations, each
returned pointer is a multiple of its request's alignment, and the
returned byte ranges `[p, p + size)` are pairwise disjoint. -/
theorem bump_allocations_aligned_disjoint (hs hsize : Nat)
    (lays : List Layout) (ps : List Nat) (a' : BumpAllocator)
    (hpos : ∀ l ∈ lays, 0 < l.align)
    (h : (BumpAllocator.init hs hsize).allocAll lays = some (ps, a')) :
    List.Forall₂ (fun (l : Layout) (p : Nat) => l.align ∣ p) lays ps ∧
    List.Pairwise (fun x y => x.1 + x.2 ≤ y.1 ∨ y.1 + y.2 ≤ x.1)
      (ps.zip (lays.map Layout.size)) := by
  obtain ⟨_, h2, _, h4⟩ := allocAll_spec lays _ ps a' hpos h
  exact ⟨h2, h4.imp (fun hxy => Or.inl hxy)⟩

/-- C8 (witness): three 100-byte, 8-aligned allocations from a 1024-byte
heap at 8 return 8, 112, 216 — aligned and disjoint. -/
theorem bump_allocations_aligned_disjoint_witness :
    (BumpAllocator.init 8 1024).allocAll
        [⟨100, 8⟩, ⟨100, 8⟩, ⟨100, 8⟩]
      = some ([8, 112, 216], ⟨8, 1032, 316, 3⟩) ∧
    List.Forall₂ (fun (l : Layout) (p : Nat) => l.align ∣ p)
      [⟨100, 8⟩, ⟨100, 8⟩, ⟨100, 8⟩] [8, 112, 216] ∧
    List.Pairwise (fun x y => x.1 + x.2 ≤ y.1 ∨ y.1 + y.2 ≤ x.1)
      ([8, 112, 216].zip
        (([⟨100, 8⟩, ⟨100, 8⟩, ⟨100, 8⟩] : List Layout).map Layout.size)) :=
  ⟨by decide,
    (bump_allocations_aligned_disjoint 8 1024 [⟨100, 8⟩, ⟨100, 8⟩, ⟨100, 8⟩]
      [8, 112, 216] ⟨8, 1032, 316, 3⟩ (by decide) (by decide)).1,
    (bump_allocations_aligned_disjoint 8 1024 [⟨100, 8⟩, ⟨100, 8⟩, ⟨100, 8⟩]
      [8, 112, 216] ⟨8, 1032, 316, 3⟩ (by decide) (by decide)).2⟩

/-- After `dealloc` pushes a block, an `alloc` of the same size pops that
very block: the same address comes back, `used_memory` untouched.  Holds
for any allocator state whose free-list array has its fixed length 9. -/
theorem dealloc_then_alloc_reuses (st1 : FixedSizeAllocator) (mem1 : NextMem)
    (l : Layout) (X : Nat) (hsz : l.size ≤ MAX_BLOCK_SIZE)
    (hlen : st1.free_list.length = 9) :
    (FixedSizeAllocator.alloc (st1.dealloc mem1 X l).1
      (st1.dealloc mem1 X l).2 l).1 = some X ∧
    (FixedSizeAllocator.alloc (st1.dealloc mem1 X l).1
      (st1.dealloc mem1 X l).2 l).2.1.used_memory = st1.used_memory := by
  have hnotgt : ¬ l.size > MAX_BLOCK_SIZE := by omega
  have hlt : get_block_size_index l.size < st1.free_list.length := by
    rw [hlen]; exact get_block_size_index_lt _ hsz
  have hget : (st1.free_list.set (get_block_size_index l.size)
      (some X)).getD (get_block_size_index l.size) none = some X := by
    simp [List.getD, List.getElem?_set_self, hlt]
  simp only [FixedSizeAllocator.dealloc, if_neg hnotgt,
    FixedSizeAllocator.add_block, FixedSizeAllocator.alloc,
    FixedSizeAllocator.remove_block, hget]
  simp

/-- C7: if `alloc` of a size within the classes returns address `X`, then
`dealloc(X, same layout)` followed by another `alloc` of the same layout
returns `X` again, with `used_memory` identical at the two allocations
(the freed block is popped from its free list, not newly carved). -/
theorem fixed_free_realloc_same_address (st : FixedSizeAllocator)
    (mem : NextMem) (l : Layout) (X : Nat)
    (hsz : l.size ≤ MAX_BLOCK_SIZE)
    (hlen : (st.alloc mem l).2.1.free_list.length = 9)
    (_hX : (st.alloc mem l).1 = some X) :
    (FixedSizeAllocator.alloc
      (FixedSizeAllocator.dealloc (st.alloc mem l).2.1
        (st.alloc mem l).2.2 X l).1
      (FixedSizeAllocator.dealloc (st.alloc mem l).2.1
        (st.alloc mem l).2.2 X l).2 l).1 = some X ∧
    (FixedSizeAllocator.alloc
      (FixedSizeAllocator.dealloc (st.alloc mem l).2.1
        (st.alloc mem l).2.2 X l).1
      (FixedSizeAllocator.dealloc (st.alloc mem l).2.1
        (st.alloc mem l).2.2 X l).2 l).2.1.used_memory
      = (st.alloc mem l).2.1.used_memory :=
  dealloc_then_alloc_reuses (st.alloc mem l).2.1 (st.alloc mem l).2.2 l X
    hsz hlen

/-- C7 (witness): allocating 100 bytes (class 128) from a fresh heap at 8
returns 8 with `used_memory` 128; after freeing and re-allocating, the
address is again 8 and `used_memory` is again 128. -/
theorem fixed_free_realloc_same_address_witness :
    (100 : Nat) ≤ MAX_BLOCK_SIZE ∧
    ((FixedSizeAllocator.initState 8 1000).alloc emptyNextMem
      ⟨100, 8⟩).2.1.free_list.length = 9 ∧
    ((FixedSizeAllocator.initState 8 1000).alloc emptyNextMem
      ⟨100, 8⟩).1 = some 8 ∧
    (FixedSizeAllocator.alloc
      (FixedSizeAllocator.dealloc
        ((FixedSizeAllocator.initState 8 1000).alloc emptyNextMem
          ⟨100, 8⟩).2.1
        ((FixedSizeAllocator.initState 8 1000).alloc emptyNextMem
          ⟨100, 8⟩).2.2 8 ⟨100, 8⟩).1
      (FixedSizeAllocator.dealloc
        ((FixedSizeAllocator.initState 8 1000).alloc emptyNextMem
          ⟨100, 8⟩).2.1
        ((FixedSizeAllocator.initState 8 1000).alloc emptyNextMem
          ⟨100, 8⟩).2.2 8 ⟨100, 8⟩).2 ⟨100, 8⟩).1 = some 8 ∧
    (FixedSizeAllocator.alloc
      (FixedSizeAllocator.dealloc
        ((FixedSizeAllocator.initState 8 1000).alloc emptyNextMem
          ⟨100, 8⟩).2.1
        ((FixedSizeAllocator.initState 8 1000).alloc emptyNextMem
          ⟨100, 8⟩).2.2 8 ⟨100, 8⟩).1
      (FixedSizeAllocator.dealloc
        ((FixedSizeAllocator.initState 8 1000).alloc emptyNextMem
          ⟨100, 8⟩).2.1
        ((FixedSizeAllocator.initState 8 1000).alloc emptyNextMem
          ⟨100, 8⟩).2.2 8 ⟨100, 8⟩).2 ⟨100, 8⟩).2.1.used_memory
      = ((FixedSizeAllocator.initState 8 1000).alloc emptyNextMem
          ⟨100, 8⟩).2.1.used_memory :=
  ⟨by decide, by decide, by decide,
    (fixed_free_realloc_same_address (FixedSizeAllocator.initState 8 1000)
      emptyNextMem ⟨100, 8⟩ 8 (by decide) (by decide) (by decide)).1,
    (fixed_free_realloc_same_address (FixedSizeAllocator.initState 8 1000)
      emptyNextMem ⟨100, 8⟩ 8 (by decide) (by decide) (by decide)).2⟩

/-- The fuel of `padListF` is irrelevant once it covers the gap. -/
theorem padListF_congr : ∀ (f1 f2 gap : Nat), gap ≤ f1 → gap ≤ f2 →
    padListF f1 gap = padListF f2 gap := by
  intro f1
  induction f1 with
  | zero =>
    intro f2 gap h1 _
    have hg : gap = 0 := Nat.le_zero.mp h1
    subst hg
    cases f2 with
    | zero => rfl
    | succ f2 => simp [padListF, MIN_BLOCK_SIZE]
  | succ f1 ih =>
    intro f2 gap h1 h2
    by_cases h8 : MIN_BLOCK_SIZE ≤ gap
    · have hpad := (largestClassLE_spec gap h8).1
      cases f2 with
      | zero =>
        have : gap = 0 := Nat.le_zero.mp h2
        subst this
        simp only [MIN_BLOCK_SIZE] at h8
        omega
      | succ f2 =>
        simp only [padListF, if_pos h8]
        have hm : MIN_BLOCK_SIZE = 8 := rfl
        rw [ih f2 (gap - largestClassLE gap) (by omega) (by omega)]
    · cases f2 with
      | zero =>
        have : gap = 0 := Nat.le_zero.mp h2
        subst this
        simp [padListF, MIN_BLOCK_SIZE]
      | succ f2 => simp only [padListF, if_neg h8]

/-- The emitted padding recurrence: for a gap of at least the minimum
class, the first pad is the largest fitting class and the rest handles the
remaining gap. -/
theorem padList_cons (gap : Nat) (h : MIN_BLOCK_SIZE ≤ gap) :
    padList gap = largestClassLE gap :: padList (gap - largestClassLE gap) := by
  have hpad := (largestClassLE_spec gap h).1
  have h1 : 1 ≤ gap := by
    simp only [MIN_BLOCK_SIZE] at h
    omega
  unfold padList
  obtain ⟨g, rfl⟩ : ∃ g, gap = g + 1 := ⟨gap - 1, by omega⟩
  have hm8 : (8 : Nat) ≤ largestClassLE (g + 1) := by
    simpa [MIN_BLOCK_SIZE] using hpad
  simp only [padListF, if_pos h]
  rw [padListF_congr g (g + 1 - largestClassLE (g + 1))
    (g + 1 - largestClassLE (g + 1)) (by omega) (Nat.le_refl _)]

theorem padList_nil (gap : Nat) (h : ¬ MIN_BLOCK_SIZE ≤ gap) :
    padList gap = [] := by
  unfold padList
  cases gap with
  | zero => rfl
  | succ g => simp only [padListF, if_neg h]

/-- The source padding loop computes exactly the `applyPads` of `padList`:
each iteration pushes the largest fitting class and advances. -/
theorem padLoopF_eq_applyPads : ∀ (fuel : Nat) (st : FixedSizeAllocator)
    (mem : NextMem) (cur A : Nat), A - cur ≤ fuel →
    padLoopF fuel st mem cur A = applyPads st mem cur (padList (A - cur)) := by
  intro fuel
  induction fuel with
  | zero =>
    intro st mem cur A h
    rw [Nat.le_zero.mp h]
    rfl
  | succ fuel ih =>
    intro st mem cur A h
    by_cases h8 : MIN_BLOCK_SIZE ≤ A - cur
    · have hpad := (largestClassLE_spec (A - cur) h8).1
      have hm : (8 : Nat) ≤ largestClassLE (A - cur) := by
        simpa [MIN_BLOCK_SIZE] using hpad
      have h8' : (8 : Nat) ≤ A - cur := by
        simpa [MIN_BLOCK_SIZE] using h8
      rw [padList_cons _ h8]
      simp only [padLoopF, if_pos h8, applyPads, List.foldl]
      have heq : A - cur - largestClassLE (A - cur)
          = A - (cur + largestClassLE (A - cur)) := by omega
      have := ih ({ (FixedSizeAllocator.add_block st mem cur
          (largestClassLE (A - cur))).1 with
        used_memory := (FixedSizeAllocator.add_block st mem cur
          (largestClassLE (A - cur))).1.used_memory
            + largestClassLE (A - cur) })
        (FixedSizeAllocator.add_block st mem cur (largestClassLE (A - cur))).2
        (cur + largestClassLE (A - cur)) A (by omega)
      rw [this, ← heq]
      rfl
    · rw [padList_nil _ h8]
      simp only [padLoopF, if_neg h8]
      rfl

/-- Accounting facts about the emitted padding: it fits in the gap, what
remains uncovered is smaller than the minimum class, and every pad is a
size class. -/
theorem padList_spec : ∀ gap : Nat, (padList gap).sum ≤ gap ∧
    gap - (padList gap).sum < MIN_BLOCK_SIZE ∧
    ∀ p ∈ padList gap, p ∈ BLOCK_SIZES := by
  intro gap
  induction gap using Nat.strong_induction_on with
  | _ gap ih =>
    by_cases h8 : MIN_BLOCK_SIZE ≤ gap
    · obtain ⟨hp8, hple, hpmem, _⟩ := largestClassLE_spec gap h8
      have hm : (8 : Nat) ≤ largestClassLE gap := by
        simpa [MIN_BLOCK_SIZE] using hp8
      have h8' : (8 : Nat) ≤ gap := by simpa [MIN_BLOCK_SIZE] using h8
      rw [padList_cons _ h8]
      obtain ⟨ih1, ih2, ih3⟩ := ih (gap - largestClassLE gap) (by omega)
      have hmin : MIN_BLOCK_SIZE = 8 := rfl
      refine ⟨by simp [List.sum_cons]; omega, ?_, ?_⟩
      · simp only [List.sum_cons, hmin] at ih2 ⊢
        omega
      · intro p hp
        rcases List.mem_cons.mp hp with h' | h'
        · rw [h']; exact hpmem
        · exact ih3 p h'
    · rw [padList_nil _ h8]
      simp only [List.sum_nil, List.not_mem_nil]
      refine ⟨Nat.zero_le _, by omega, by intro p hp; cases hp⟩

/-- C5 (counterexample): with the cursor at address 1 and alignment 8, the
alignment gap is 7 bytes — below the minimum class — so `create_block`
pushes *no* padding block, yet marks all 7 gap bytes used
(`used_memory` = 7 + 8 = 15 after carving the 8-byte block) with every
free list still empty: part of the gap is wasted, not deferred. -/
theorem padding_remainder_wasted_counterexample :
    align_up (1 + 0) 8 - (1 + 0) = 7 ∧
    (FixedSizeAllocator.create_block
      ⟨1, 100, 0, List.replicate 9 none⟩ emptyNextMem 8 8).1 = some 8 ∧
    (FixedSizeAllocator.create_block
      ⟨1, 100, 0, List.replicate 9 none⟩ emptyNextMem 8 8).2.1.used_memory
      = 15 ∧
    (FixedSizeAllocator.create_block
      ⟨1, 100, 0, List.replicate 9 none⟩ emptyNextMem 8 8).2.1.free_list
      = List.replicate 9 none := by decide

/-- `create_block` coincides with its padding specification. -/
theorem create_block_eq_createBlockSpec (st : FixedSizeAllocator)
    (mem : NextMem) (size align : Nat) :
    st.create_block mem size align = createBlockSpec st mem size align := by
  have ha := padLoopF_eq_applyPads
    (align_up (st.heap_start + st.used_memory) align
      - (st.heap_start + st.used_memory))
    st mem (st.heap_start + st.used_memory)
    (align_up (st.heap_start + st.used_memory) align) (Nat.le_refl _)
  simp only [FixedSizeAllocator.create_block, createBlockSpec, ha]

/-- C5 (amended): `create_block` equals its specification
`createBlockSpec`: the alignment gap is covered by the padding blocks of
`padList` — at each step the largest class fitting the remaining gap,
each pushed to its own free list with `used_memory` advanced — except for
a final remainder smaller than the minimum class, which is marked used
*without* any free-list entry; the emitted pads sum to at most the gap and
are all size classes. -/
theorem create_block_padding_spec :
    (∀ (st : FixedSizeAllocator) (mem : NextMem) (size align : Nat),
      st.create_block mem size align = createBlockSpec st mem size align) ∧
    (∀ gap, MIN_BLOCK_SIZE ≤ gap →
      padList gap
        = largestClassLE gap :: padList (gap - largestClassLE gap)) ∧
    (∀ gap : Nat, (padList gap).sum ≤ gap ∧
      gap - (padList gap).sum < MIN_BLOCK_SIZE ∧
      ∀ p ∈ padList gap, p ∈ BLOCK_SIZES) :=
  ⟨create_block_eq_createBlockSpec, padList_cons, padList_spec⟩

/-- C5 (witness): the padding recurrence at gap 24 (pads 16 then 8) and
the loop/spec equality at a concrete carve. -/
theorem create_block_padding_spec_witness :
    MIN_BLOCK_SIZE ≤ 24 ∧
    padList 24 = largestClassLE 24 :: padList (24 - largestClassLE 24) ∧
    FixedSizeAllocator.create_block
        ⟨8, 64, 0, List.replicate 9 none⟩ emptyNextMem 8 16
      = createBlockSpec ⟨8, 64, 0, List.replicate 9 none⟩ emptyNextMem 8 16 :=
  ⟨by decide, create_block_padding_spec.2.1 24 (by decide),
    create_block_padding_spec.1 ⟨8, 64, 0, List.replicate 9 none⟩
      emptyNextMem 8 16⟩

/-- Field accounting of `applyPads`: padding only grows `used_memory` and
the cursor by the pad sizes, never touching the heap bounds or the
free-list arity. -/
theorem applyPads_fields : ∀ (pads : List Nat) (st : FixedSizeAllocator)
    (mem : NextMem) (cur : Nat),
    (applyPads st mem cur pads).1.heap_start = st.heap_start ∧
    (applyPads st mem cur pads).1.heap_size = st.heap_size ∧
    (applyPads st mem cur pads).1.used_memory = st.used_memory + pads.sum ∧
    (applyPads st mem cur pads).2.2 = cur + pads.sum ∧
    (applyPads st mem cur pads).1.free_list.length
      = st.free_list.length := by
  intro pads
  induction pads with
  | nil => intro st mem cur; simp [applyPads]
  | cons p rest ih =>
    intro st mem cur
    have hstep : applyPads st mem cur (p :: rest)
        = applyPads
          { (st.add_block mem cur p).1 with
            used_memory := (st.add_block mem cur p).1.used_memory + p }
          (st.add_block mem cur p).2 (cur + p) rest := rfl
    rw [hstep]
    obtain ⟨h1, h2, h3, h4, h5⟩ := ih
      { (st.add_block mem cur p).1 with
        used_memory := (st.add_block mem cur p).1.used_memory + p }
      (st.add_block mem cur p).2 (cur + p)
    refine ⟨?_, ?_, ?_, ?_, ?_⟩
    · rw [h1]; simp [FixedSizeAllocator.add_block]
    · rw [h2]; simp [FixedSizeAllocator.add_block]
    · rw [h3]
      simp [FixedSizeAllocator.add_block, List.sum_cons]
      omega
    · rw [h4]; simp [List.sum_cons]; omega
    · rw [h5]; simp [FixedSizeAllocator.add_block]

/-- Shape of a successful carve: the returned address is the aligned bump
cursor, and afterwards the cursor (heap start plus `used_memory`) sits
exactly one rounded-up block past it; heap bounds are unchanged. -/
theorem create_block_some_shape (st : FixedSizeAllocator) (mem : NextMem)
    (size align p : Nat) (hal : 0 < align)
    (h : (st.create_block mem size align).1 = some p) :
    p = align_up (st.heap_start + st.used_memory) align ∧
    st.heap_start + (st.create_block mem size align).2.1.used_memory
      = p + FixedSizeAllocator.round_up size ∧
    (st.create_block mem size align).2.1.heap_start = st.heap_start ∧
    (st.create_block mem size align).2.1.heap_size = st.heap_size := by
  have hce := create_block_eq_createBlockSpec st mem size align
  rw [hce] at h ⊢
  have hcle : st.heap_start + st.used_memory
      ≤ align_up (st.heap_start + st.used_memory) align :=
    le_align_up _ hal
  obtain ⟨hsum, _, _⟩ := padList_spec
    (align_up (st.heap_start + st.used_memory) align
      - (st.heap_start + st.used_memory))
  obtain ⟨hf1, hf2, hf3, hf4, _⟩ := applyPads_fields
    (padList (align_up (st.heap_start + st.used_memory) align
      - (st.heap_start + st.used_memory))) st mem
    (st.heap_start + st.used_memory)
  simp only [createBlockSpec] at h ⊢
  split at h
  · cases h
  · rename_i hoom
    split at h
    · cases h
    · rename_i hz
      injection h with h
      subst h
      rw [if_neg hoom, if_neg hz]
      refine ⟨rfl, ?_, ?_, ?_⟩
      · dsimp only
        simp only [hf3, hf4]
        omega
      · dsimp only
        simp only [hf1]
      · dsimp only
        simp only [hf2]

/-- When the bump cursor is already max-class aligned, carving a max-class
block needs no padding: it returns the cursor itself and advances
`used_memory` by exactly one max class. -/
theorem create_block_max_aligned (st : FixedSizeAllocator) (mem : NextMem)
    (hal : MAX_BLOCK_SIZE ∣ (st.heap_start + st.used_memory)) :
    st.create_block mem MAX_BLOCK_SIZE MAX_BLOCK_SIZE =
      (if st.used_memory + MAX_BLOCK_SIZE > st.heap_size
        then (none, st, mem)
        else
          ((if st.heap_start + st.used_memory = 0 then none
            else some (st.heap_start + st.used_memory)),
            { st with used_memory := st.used_memory + MAX_BLOCK_SIZE },
            mem)) := by
  have hA : align_up (st.heap_start + st.used_memory) MAX_BLOCK_SIZE
      = st.heap_start + st.used_memory :=
    align_up_of_dvd _ (by decide) hal
  have hru : FixedSizeAllocator.round_up MAX_BLOCK_SIZE = MAX_BLOCK_SIZE :=
    rfl
  simp only [FixedSizeAllocator.create_block, hA, Nat.sub_self, padLoopF,
    hru, Nat.add_zero]

/-- The huge-path carve loop, started on an aligned cursor: if it
succeeds, it advances `used_memory` by exactly `k` max-class blocks and
touches nothing else. -/
theorem hugeLoop_aligned_spec : ∀ (k : Nat) (st : FixedSizeAllocator)
    (mem : NextMem),
    MAX_BLOCK_SIZE ∣ (st.heap_start + st.used_memory) →
    (hugeLoop k st mem).1 = some () →
    (hugeLoop k st mem).2.1
      = { st with used_memory := st.used_memory + k * MAX_BLOCK_SIZE } ∧
    (hugeLoop k st mem).2.2 = mem := by
  intro k
  induction k with
  | zero => intro st mem _ _; exact ⟨by simp [hugeLoop], rfl⟩
  | succ k ih =>
    intro st mem hal h
    have hcb := create_block_max_aligned st mem hal
    simp only [hugeLoop, hcb] at h ⊢
    by_cases hoom : st.used_memory + MAX_BLOCK_SIZE > st.heap_size
    · rw [if_pos hoom] at h
      cases h
    · rw [if_neg hoom] at h ⊢
      by_cases hz : st.heap_start + st.used_memory = 0
      · rw [if_pos hz] at h
        cases h
      · rw [if_neg hz] at h ⊢
        have hal' : MAX_BLOCK_SIZE ∣
            (({ st with used_memory := st.used_memory + MAX_BLOCK_SIZE }
              : FixedSizeAllocator).heap_start
             + ({ st with used_memory := st.used_memory + MAX_BLOCK_SIZE }
              : FixedSizeAllocator).used_memory) := by
          show MAX_BLOCK_SIZE ∣ st.heap_start + (st.used_memory + MAX_BLOCK_SIZE)
          have he : st.heap_start + (st.used_memory + MAX_BLOCK_SIZE)
              = (st.heap_start + st.used_memory) + MAX_BLOCK_SIZE := by omega
          rw [he]
          exact Nat.dvd_add hal (Nat.dvd_refl _)
        obtain ⟨ih1, ih2⟩ := ih _ _ hal' h
        refine ⟨?_, ih2⟩
        rw [ih1]
        have he2 : st.used_memory + MAX_BLOCK_SIZE + k * MAX_BLOCK_SIZE
            = st.used_memory + (k + 1) * MAX_BLOCK_SIZE := by
          simp [Nat.succ_mul]
          omega
        simp only []
        rw [he2]

theorem takeChain_zero (mem : NextMem) (h : Option Nat) :
    takeChain mem h 0 = [] := by
  cases h <;> rfl

/-- `takeChain` only reads the links of the nodes it lists, so memories
agreeing there produce the same chain. -/
theorem takeChain_congr : ∀ (k : Nat) (mem mem' : NextMem) (h : Option Nat),
    (∀ x ∈ takeChain mem h k, mem' x = mem x) →
    takeChain mem' h k = takeChain mem h k := by
  intro k
  induction k with
  | zero => intro mem mem' h _; rw [takeChain_zero, takeChain_zero]
  | succ k ih =>
    intro mem mem' h hagree
    cases h with
    | none => rfl
    | some a =>
      have hmem : a ∈ takeChain mem (some a) (k + 1) := by
        simp [takeChain]
      have ha : mem' a = mem a := hagree a hmem
      show a :: takeChain mem' (mem' a) k = a :: takeChain mem (mem a) k
      rw [ha]
      refine congrArg _ (ih mem mem' (mem a) ?_)
      intro x hx
      refine hagree x ?_
      show x ∈ a :: takeChain mem (mem a) k
      exact List.mem_cons_of_mem _ hx

/-- The `_dealloc_huge` push loop: after pushing `n` max-class blocks at
stride `MAX_BLOCK_SIZE` from `ptr`, the max class's free list starts with
exactly those `n` addresses in descending order; `used_memory`, the heap
bounds and unrelated memory are untouched. -/
theorem pushLoop_spec : ∀ (n : Nat) (st : FixedSizeAllocator)
    (mem : NextMem) (ptr : Nat) (stR : FixedSizeAllocator) (memR : NextMem),
    st.free_list.length = 9 →
    (List.range n).foldl
      (fun sm i => FixedSizeAllocator.add_block sm.1 sm.2
        (ptr + MAX_BLOCK_SIZE * i) MAX_BLOCK_SIZE) (st, mem) = (stR, memR) →
    stR.free_list.length = 9 ∧
    stR.used_memory = st.used_memory ∧
    stR.heap_start = st.heap_start ∧
    stR.heap_size = st.heap_size ∧
    takeChain memR (stR.free_list.getD 8 none) n
      = (List.range n).reverse.map (fun i => ptr + MAX_BLOCK_SIZE * i) ∧
    (∀ a, (∀ i, i < n → a ≠ ptr + MAX_BLOCK_SIZE * i) → memR a = mem a) := by
  intro n
  induction n with
  | zero =>
    intro st mem ptr stR memR hlen h
    simp only [List.range_zero, List.foldl_nil] at h
    injection h with h1 h2
    subst h1
    subst h2
    exact ⟨hlen, rfl, rfl, rfl, by rw [takeChain_zero]; simp, fun a _ => rfl⟩
  | succ n ih =>
    intro st mem ptr stR memR hlen h
    rw [List.range_succ, List.foldl_append] at h
    rcases hP : (List.range n).foldl
        (fun sm i => FixedSizeAllocator.add_block sm.1 sm.2
          (ptr + MAX_BLOCK_SIZE * i) MAX_BLOCK_SIZE) (st, mem) with ⟨stN, memN⟩
    rw [hP] at h
    simp only [List.foldl_cons, List.foldl_nil] at h
    obtain ⟨ihlen, ihused, ihhs, ihhz, ihchain, ihframe⟩ :=
      ih st mem ptr stN memN hlen hP
    have hidx : get_block_size_index MAX_BLOCK_SIZE = 8 := rfl
    simp only [FixedSizeAllocator.add_block, hidx] at h
    injection h with h1 h2
    subst h1
    subst h2
    have h89 : (8 : Nat) < stN.free_list.length := by omega
    have hgetset : (stN.free_list.set 8
        (some (ptr + MAX_BLOCK_SIZE * n))).getD 8 none
        = some (ptr + MAX_BLOCK_SIZE * n) := by
      simp [List.getD, List.getElem?_set_self, h89]
    refine ⟨by simpa using ihlen, ihused, ihhs, ihhz, ?_, ?_⟩
    · rw [hgetset]
      show (ptr + MAX_BLOCK_SIZE * n) ::
          takeChain _ (if ptr + MAX_BLOCK_SIZE * n = ptr + MAX_BLOCK_SIZE * n
            then stN.free_list.getD 8 none
            else memN (ptr + MAX_BLOCK_SIZE * n)) n = _
      rw [if_pos rfl]
      have hcongr : takeChain
          (fun a => if a = ptr + MAX_BLOCK_SIZE * n
            then stN.free_list.getD 8 none else memN a)
          (stN.free_list.getD 8 none) n
          = takeChain memN (stN.free_list.getD 8 none) n := by
        refine takeChain_congr n memN _ _ ?_
        intro x hx
        rw [ihchain] at hx
        obtain ⟨i, hi, hxi⟩ := List.mem_map.mp hx
        have hin : i < n := by
          have := List.mem_reverse.mp hi
          exact List.mem_range.mp this
        have hne : x ≠ ptr + MAX_BLOCK_SIZE * n := by
          rw [← hxi]
          intro hcontr
          have : MAX_BLOCK_SIZE * i = MAX_BLOCK_SIZE * n := by omega
          have : i = n := by
            have hmb : (0 : Nat) < MAX_BLOCK_SIZE := by decide
            exact Nat.eq_of_mul_eq_mul_left hmb
              (by rw [Nat.mul_comm MAX_BLOCK_SIZE i,
                Nat.mul_comm MAX_BLOCK_SIZE n] at this ⊢; omega)
          omega
        simp [hne]
      rw [hcongr, ihchain]
      rw [List.range_succ, List.reverse_append]
      simp
    · intro a ha
      have hne : a ≠ ptr + MAX_BLOCK_SIZE * n := ha n (by omega)
      show (if a = ptr + MAX_BLOCK_SIZE * n
        then stN.free_list.getD 8 none else memN a) = mem a
      rw [if_neg hne]
      exact ihframe a (fun i hi => ha i (by omega))

/-- C2 (counterexample): for `s = 4096` (an exact multiple of the max
class) the huge path uses `s / 2048 + 1 = 3` blocks, not
`⌈4096 / 2048⌉ = 2`: alloc carves 3 blocks (6144 bytes), and dealloc
pushes back 3 blocks at 4096, 6144 and 8192. -/
theorem huge_path_count_counterexample :
    (FixedSizeAllocator.alloc_huge
      ⟨2048, 1000000, 0, List.replicate 9 none⟩ emptyNextMem 4096).1
      = some 2048 ∧
    (FixedSizeAllocator.alloc_huge
      ⟨2048, 1000000, 0, List.replicate 9 none⟩ emptyNextMem
      4096).2.1.used_memory = 6144 ∧
    (4096 + MAX_BLOCK_SIZE - 1) / MAX_BLOCK_SIZE = 2 ∧
    ¬ (6144 : Nat) = 2 * MAX_BLOCK_SIZE ∧
    takeChain
        (FixedSizeAllocator.dealloc ⟨2048, 1000000, 0, List.replicate 9 none⟩
          emptyNextMem 4096 ⟨4096, 2048⟩).2
        ((FixedSizeAllocator.dealloc ⟨2048, 1000000, 0, List.replicate 9 none⟩
          emptyNextMem 4096 ⟨4096, 2048⟩).1.free_list.getD 8 none) 3
      = [8192, 6144, 4096] := by decide

/-- C2 (amended): the huge path serves a request of size
`s > MAX_BLOCK_SIZE` with `N = s / 2048 + 1` (that is,
`⌊s / 2048⌋ + 1`, one more than the ceiling for exact multiples) fresh
contiguous max-class blocks carved from the bump region: the returned
pointer is the 2048-aligned bump cursor and `used_memory` ends exactly
`N` max-class blocks past it; `dealloc` of the same size pushes back the
same `N` max-class blocks at 2048-byte strides from the pointer, leaving
`used_memory` unchanged. -/
theorem huge_path_block_count :
    (∀ (st : FixedSizeAllocator) (mem : NextMem) (s p : Nat),
      MAX_BLOCK_SIZE < s →
      (st.alloc_huge mem s).1 = some p →
      p = align_up (st.heap_start + st.used_memory) MAX_BLOCK_SIZE ∧
      st.heap_start + (st.alloc_huge mem s).2.1.used_memory
        = p + (s / MAX_BLOCK_SIZE + 1) * MAX_BLOCK_SIZE ∧
      (st.alloc_huge mem s).2.1.heap_start = st.heap_start ∧
      (st.alloc_huge mem s).2.1.heap_size = st.heap_size) ∧
    (∀ (st : FixedSizeAllocator) (mem : NextMem) (ptr s align : Nat),
      MAX_BLOCK_SIZE < s → st.free_list.length = 9 →
      takeChain (st.dealloc mem ptr ⟨s, align⟩).2
          ((st.dealloc mem ptr ⟨s, align⟩).1.free_list.getD 8 none)
          (s / MAX_BLOCK_SIZE + 1)
        = (List.range (s / MAX_BLOCK_SIZE + 1)).reverse.map
            (fun i => ptr + MAX_BLOCK_SIZE * i) ∧
      (st.dealloc mem ptr ⟨s, align⟩).1.used_memory = st.used_memory) := by
  constructor
  · intro st mem s p hs h
    rcases hcb : st.create_block mem MAX_BLOCK_SIZE MAX_BLOCK_SIZE
      with ⟨o1, st1, mem1⟩
    cases o1 with
    | none =>
      have hkey : st.alloc_huge mem s = (none, st1, mem1) := by
        unfold FixedSizeAllocator.alloc_huge
        rw [hcb]
      rw [hkey] at h
      cases h
    | some first =>
      rcases hhl : hugeLoop (s / MAX_BLOCK_SIZE + 1 - 1) st1 mem1
        with ⟨o2, st2, mem2⟩
      cases o2 with
      | none =>
        have hkey : st.alloc_huge mem s = (none, st2, mem2) := by
          unfold FixedSizeAllocator.alloc_huge
          rw [hcb]
          show (match hugeLoop (s / MAX_BLOCK_SIZE + 1 - 1) st1 mem1 with
            | (none, a, b) => ((none : Option Nat), a, b)
            | (some _, a, b) => (some first, a, b)) = (none, st2, mem2)
          rw [hhl]
        rw [hkey] at h
        cases h
      | some u =>
        have hkey : st.alloc_huge mem s = (some first, st2, mem2) := by
          unfold FixedSizeAllocator.alloc_huge
          rw [hcb]
          show (match hugeLoop (s / MAX_BLOCK_SIZE + 1 - 1) st1 mem1 with
            | (none, a, b) => ((none : Option Nat), a, b)
            | (some _, a, b) => (some first, a, b)) = (some first, st2, mem2)
          rw [hhl]
        rw [hkey] at h ⊢
        injection h with h
        subst h
        have hshape := create_block_some_shape st mem MAX_BLOCK_SIZE
          MAX_BLOCK_SIZE first (by decide) (by rw [hcb])
        have hfirst : first = align_up (st.heap_start + st.used_memory)
            MAX_BLOCK_SIZE := hshape.1
        have hcur : st.heap_start + st1.used_memory
            = first + FixedSizeAllocator.round_up MAX_BLOCK_SIZE := by
          have := hshape.2.1
          rw [hcb] at this
          exact this
        have hh1 : st1.heap_start = st.heap_start := by
          have := hshape.2.2.1
          rw [hcb] at this
          exact this
        have hh2 : st1.heap_size = st.heap_size := by
          have := hshape.2.2.2
          rw [hcb] at this
          exact this
        have hru : FixedSizeAllocator.round_up MAX_BLOCK_SIZE
            = MAX_BLOCK_SIZE := rfl
        have hal1 : MAX_BLOCK_SIZE ∣ (st1.heap_start + st1.used_memory) := by
          rw [hh1, hcur, hru, hfirst]
          exact Nat.dvd_add (align_up_dvd _ _) (Nat.dvd_refl _)
        obtain ⟨hst2, _⟩ := hugeLoop_aligned_spec
          (s / MAX_BLOCK_SIZE + 1 - 1) st1 mem1 hal1 (by rw [hhl])
        have hst2' : st2 = { st1 with used_memory := st1.used_memory
            + (s / MAX_BLOCK_SIZE + 1 - 1) * MAX_BLOCK_SIZE } := by
          rw [hhl] at hst2
          exact hst2
        have hmul : (s / MAX_BLOCK_SIZE + 1) * MAX_BLOCK_SIZE
            = (s / MAX_BLOCK_SIZE) * MAX_BLOCK_SIZE + MAX_BLOCK_SIZE := by
          rw [Nat.succ_mul]
        rw [hru] at hcur
        refine ⟨hfirst, ?_, ?_, ?_⟩
        · show st.heap_start + st2.used_memory
            = first + (s / MAX_BLOCK_SIZE + 1) * MAX_BLOCK_SIZE
          rw [hst2']
          show st.heap_start + (st1.used_memory
            + (s / MAX_BLOCK_SIZE + 1 - 1) * MAX_BLOCK_SIZE)
            = first + (s / MAX_BLOCK_SIZE + 1) * MAX_BLOCK_SIZE
          simp only [Nat.add_sub_cancel]
          rw [hmul]
          omega
        · show st2.heap_start = st.heap_start
          rw [hst2']
          exact hh1
        · show st2.heap_size = st.heap_size
          rw [hst2']
          exact hh2
  · intro st mem ptr s align hs hlen
    have hd : st.dealloc mem ptr ⟨s, align⟩ = st.dealloc_huge mem ptr s := by
      unfold FixedSizeAllocator.dealloc
      rw [if_pos hs]
    rcases hfold : st.dealloc_huge mem ptr s with ⟨stR, memR⟩
    have hfold' : (List.range (s / MAX_BLOCK_SIZE + 1)).foldl
        (fun sm i => FixedSizeAllocator.add_block sm.1 sm.2
          (ptr + MAX_BLOCK_SIZE * i) MAX_BLOCK_SIZE) (st, mem)
        = (stR, memR) := by
      rw [← hfold]
      rfl
    obtain ⟨_, hused, _, _, hchain, _⟩ := pushLoop_spec
      (s / MAX_BLOCK_SIZE + 1) st mem ptr stR memR hlen hfold'
    rw [hd, hfold]
    exact ⟨hchain, hused⟩

/-- C2 (witness): a 5000-byte request (3 max-class blocks) carved at an
aligned cursor and deallocated at pointer 1000. -/
theorem huge_path_block_count_witness :
    MAX_BLOCK_SIZE < 5000 ∧
    (FixedSizeAllocator.alloc_huge ⟨4096, 50000, 0, List.replicate 9 none⟩
        emptyNextMem 5000).1 = some 4096 ∧
    (4096 : Nat) = align_up 4096 MAX_BLOCK_SIZE ∧
    4096 + (FixedSizeAllocator.alloc_huge
        ⟨4096, 50000, 0, List.replicate 9 none⟩
        emptyNextMem 5000).2.1.used_memory
      = 4096 + (5000 / MAX_BLOCK_SIZE + 1) * MAX_BLOCK_SIZE ∧
    takeChain (FixedSizeAllocator.dealloc ⟨0, 50, 7, List.replicate 9 none⟩
          emptyNextMem 1000 ⟨5000, 64⟩).2
        ((FixedSizeAllocator.dealloc ⟨0, 50, 7, List.replicate 9 none⟩
          emptyNextMem 1000 ⟨5000, 64⟩).1.free_list.getD 8 none)
        (5000 / MAX_BLOCK_SIZE + 1)
      = (List.range (5000 / MAX_BLOCK_SIZE + 1)).reverse.map
          (fun i => 1000 + MAX_BLOCK_SIZE * i) ∧
    (FixedSizeAllocator.dealloc ⟨0, 50, 7, List.replicate 9 none⟩
        emptyNextMem 1000 ⟨5000, 64⟩).1.used_memory = 7 :=
  ⟨by decide, by decide,
    (huge_path_block_count.1 ⟨4096, 50000, 0, List.replicate 9 none⟩
      emptyNextMem 5000 4096 (by decide) (by decide)).1,
    (huge_path_block_count.1 ⟨4096, 50000, 0, List.replicate 9 none⟩
      emptyNextMem 5000 4096 (by decide) (by decide)).2.1,
    (huge_path_block_count.2 ⟨0, 50, 7, List.replicate 9 none⟩
      emptyNextMem 1000 5000 64 (by decide) (by decide)).1,
    (huge_path_block_count.2 ⟨0, 50, 7, List.replicate 9 none⟩
      emptyNextMem 1000 5000 64 (by decide) (by decide)).2⟩

end Hannos
